import Mathlib

/-!
Verification of the streaming-chunk normalizer
(`common/utils_better_code_but_broken.py` and `common/utils.py`).

The normalizer operates on loosely-typed Python data (nested dicts, lists,
strings, ints, booleans, None).  We embed that value universe as the
inductive type `PyVal`; Python dicts become insertion-ordered association
lists (`List (String × PyVal)`), matching Python dict semantics: key lookup
returns the first (and in a real dict, only) binding, assignment updates an
existing binding in place or appends a fresh one at the end, and iteration
follows insertion order.
-/

inductive PyVal where
  | none : PyVal
  | bool : Bool → PyVal
  | int : Int → PyVal
  | str : String → PyVal
  | list : List PyVal → PyVal
  | dict : List (String × PyVal) → PyVal
deriving Repr

abbrev PyDict := List (String × PyVal)

/-- Test `x is None` in Python. -/
def isNone : PyVal → Bool
  | PyVal.none => true
  | _ => false

/-- Python `d.get(k)`-style lookup returning an `Option`: the value of the first
binding of `k`, if any. -/
def dictFind : PyDict → String → Option PyVal
  | [], _ => Option.none
  | kv :: rest, k => if kv.1 = k then some kv.2 else dictFind rest k

/-- Lookup `d.get(k)` in Python: absent keys yield `None`. -/
def dictGet (d : PyDict) (k : String) : PyVal :=
  (dictFind d k).getD PyVal.none

/-- Lookup `d.get(k, default)` in Python. -/
def dictGetD (d : PyDict) (k : String) (dflt : PyVal) : PyVal :=
  (dictFind d k).getD dflt

/-- Membership `k in d` in Python. -/
def dictHas (d : PyDict) (k : String) : Bool :=
  (dictFind d k).isSome

/-- Assignment `d[k] = v` in Python: update the first binding of `k` in place, or append
a new binding at the end. -/
def dictSet : PyDict → String → PyVal → PyDict
  | [], k, v => [(k, v)]
  | kv :: rest, k, v =>
    if kv.1 = k then (k, v) :: rest else kv :: dictSet rest k v

/-- Python truthiness `bool(x)` on the embedded values (`bool(x)`). -/
def pyTruthy : PyVal → Bool
  | PyVal.none => false
  | PyVal.bool b => b
  | PyVal.int n => n ≠ 0
  | PyVal.str s => ¬ s.isEmpty
  | PyVal.list xs => ¬ xs.isEmpty
  | PyVal.dict kvs => ¬ kvs.isEmpty

/-- Python `isinstance(x, dict)`. -/
def isDict : PyVal → Bool
  | PyVal.dict _ => true
  | _ => false

/-- The items of a Python list value (used for `list.extend`). -/
def pyListItems : PyVal → List PyVal
  | PyVal.list xs => xs
  | _ => []

mutual

/-- Approximates Python `repr` on the embedded values (string quoting approximated:
escape sequences inside strings are not re-escaped). -/
def pyRepr : PyVal → String
  | PyVal.none => "None"
  | PyVal.bool true => "True"
  | PyVal.bool false => "False"
  | PyVal.int n => toString n
  | PyVal.str s => "\x27" ++ s ++ "\x27"
  | PyVal.list xs => "[" ++ pyReprList xs ++ "]"
  | PyVal.dict kvs => "\x7b" ++ pyReprDict kvs ++ "\x7d"

def pyReprList : List PyVal → String
  | [] => ""
  | [x] => pyRepr x
  | x :: xs => pyRepr x ++ ", " ++ pyReprList xs

def pyReprDict : List (String × PyVal) → String
  | [] => ""
  | [kv] => "\x27" ++ kv.1 ++ "\x27: " ++ pyRepr kv.2
  | kv :: kvs => "\x27" ++ kv.1 ++ "\x27: " ++ pyRepr kv.2 ++ ", " ++ pyReprDict kvs

end

/-- Python conversion `str(x)`: identity on strings, `repr`-style otherwise. -/
def pyStr : PyVal → String
  | PyVal.str s => s
  | v => pyRepr v

/-- ASCII whitespace stripped by Python `int()`. -/
def charIsSpace (c : Char) : Bool :=
  c = ' ' || c = '\t' || c = '\n' || c = '\r' || c = '\x0b' || c = '\x0c'

/-- Accumulate decimal digits; any non-digit character fails. -/
def parseDigitsAux : List Char → Nat → Option Nat
  | [], acc => some acc
  | c :: cs, acc =>
    if c.isDigit then parseDigitsAux cs (acc * 10 + (c.toNat - 48)) else Option.none

/-- One or more decimal digits. -/
def parseDigits : List Char → Option Nat
  | [] => Option.none
  | c :: cs => parseDigitsAux (c :: cs) 0

/-- Python conversion `int(s)` on a string: optional surrounding whitespace, optional
sign, then decimal digits (digit-group underscores are not modelled).
`Option.none` models the `ValueError` swallowed by the caller. -/
def intOfDecimalString (s : String) : Option Int :=
  let cs0 := s.data.dropWhile charIsSpace
  let cs := (cs0.reverse.dropWhile charIsSpace).reverse
  match cs with
  | [] => Option.none
  | c :: rest =>
    if c = '-' then (parseDigits rest).map (fun n => -(n : Int))
    else if c = '+' then (parseDigits rest).map (fun n => (n : Int))
    else (parseDigits (c :: rest)).map (fun n => (n : Int))

/-- Python conversion `int(x)` on the embedded values; `Option.none` models the
`TypeError`/`ValueError` swallowed by the caller. -/
def pyToInt : PyVal → Option Int
  | PyVal.int n => some n
  | PyVal.bool b => some (if b then 1 else 0)
  | PyVal.str s => intOfDecimalString s
  | _ => Option.none

/-!
Embedding of `common/utils_better_code_but_broken.py` (the chunk
normalizer).  Function names follow the source.  The three identical
verbatim-passthrough loops of the source (`for key, value in ...: if key in
(...): continue; normalized[key] = value`) are shared as `passthroughFold`.
-/

/-- The passthrough loop: copy every binding of `src` whose key is not in
`skip` into `acc`, in iteration order. -/
def passthroughFold (init : PyDict) (src : PyDict) (skip : List String) : PyDict :=
  src.foldl (fun acc kv => if skip.contains kv.1 then acc else dictSet acc kv.1 kv.2) init

/-- Embeds `name_value if isinstance(name_value, str) else None` (used by
`_build_tool_call_function` and `_build_function_call`). -/
def normalizeFunctionName : PyVal → PyVal
  | PyVal.str s => PyVal.str s
  | _ => PyVal.none

/-- Embeds `arguments_value if isinstance(arguments_value, str) or arguments_value
is None else str(arguments_value)`. -/
def normalizeFunctionArguments : PyVal → PyVal
  | PyVal.str s => PyVal.str s
  | PyVal.none => PyVal.none
  | v => PyVal.str (pyStr v)

/-- Embeds `_build_tool_call_function`: resolve the `function` payload of a
tool-call dict: an explicit `function` value if not `None`, else a dict
synthesized from top-level `name`/`arguments` when one of those keys
exists; non-dict results yield `None`. -/
def _build_tool_call_function (tool_call_dict : PyDict) : PyVal :=
  let fv0 := dictGet tool_call_dict "function"
  let fv :=
    if isNone fv0 && (dictHas tool_call_dict "name" || dictHas tool_call_dict "arguments") then
      PyVal.dict [("name", dictGet tool_call_dict "name"),
                  ("arguments", dictGet tool_call_dict "arguments")]
    else fv0
  match fv with
  | PyVal.dict fd =>
    PyVal.dict (passthroughFold
      [("name", normalizeFunctionName (dictGet fd "name")),
       ("arguments", normalizeFunctionArguments (dictGet fd "arguments"))]
      fd ["name", "arguments"])
  | _ => PyVal.none

/-- The `index_normalized` local of `_build_tool_call_delta`:
`int(index_value) if index_value is not None else 0`, with conversion
failures swallowed to `0`. -/
def normalizeToolCallIndex (d : PyDict) : Int :=
  match dictGet d "index" with
  | PyVal.none => 0
  | v => (pyToInt v).getD 0

/-- The `type_normalized` local of `_build_tool_call_delta`: the given
value when it is a non-empty string, else `"function"`. -/
def normalizeToolCallType (d : PyDict) : PyVal :=
  match dictGet d "type" with
  | PyVal.str s => if s.isEmpty then PyVal.str "function" else PyVal.str s
  | _ => PyVal.str "function"

/-- The `id_normalized` local of `_build_tool_call_delta`: strings and
`None` pass through, anything else is stringified. -/
def normalizeToolCallId (d : PyDict) : PyVal :=
  match dictGet d "id" with
  | PyVal.none => PyVal.none
  | PyVal.str s => PyVal.str s
  | v => PyVal.str (pyStr v)

/-- The four canonical tool-call keys skipped by the passthrough loop. -/
def toolCallCanonicalKeys : List String := ["index", "id", "type", "function"]

/-- Embeds `_build_tool_call_delta`: normalize one tool-call-shaped value
(non-dicts are treated as the empty dict). -/
def _build_tool_call_delta (tool_call : PyVal) : PyDict :=
  let d := match tool_call with
    | PyVal.dict d0 => d0
    | _ => []
  passthroughFold
    [("index", PyVal.int (normalizeToolCallIndex d)),
     ("id", normalizeToolCallId d),
     ("type", normalizeToolCallType d),
     ("function", _build_tool_call_function d)]
    d toolCallCanonicalKeys

/-- Embeds `_build_tool_calls`: `None` passes through; a non-list value is wrapped
into a singleton list; every entry is normalized via `_build_tool_call_delta`
after the `call or {}` falsy-to-empty-dict coercion. -/
def _build_tool_calls (tool_calls : PyVal) : PyVal :=
  match tool_calls with
  | PyVal.none => PyVal.none
  | PyVal.list xs =>
    PyVal.list (xs.map (fun call =>
      PyVal.dict (_build_tool_call_delta (if pyTruthy call then call else PyVal.dict []))))
  | v =>
    PyVal.list [PyVal.dict (_build_tool_call_delta (if pyTruthy v then v else PyVal.dict []))]

/-- Embeds `_build_anthropic_tool_use`: falsy or non-dict values yield `None`;
otherwise a synthetic tool call `{index: get(index, 0), id, type:
get(type, "function"), function: {name, arguments: input}}` is normalized
via `_build_tool_call_delta`. -/
def _build_anthropic_tool_use (tool_use : PyVal) : PyVal :=
  match tool_use with
  | PyVal.dict d =>
    if d.isEmpty then PyVal.none
    else
      PyVal.dict (_build_tool_call_delta (PyVal.dict
        [("index", dictGetD d "index" (PyVal.int 0)),
         ("id", dictGet d "id"),
         ("type", dictGetD d "type" (PyVal.str "function")),
         ("function", PyVal.dict [("name", dictGet d "name"),
                                  ("arguments", dictGet d "input")])]))
  | _ => PyVal.none

/-- Embeds `_build_function_call`: falsy or non-dict values yield `None`; otherwise
`{name: str-or-None, arguments: str-or-None-or-stringified}` plus verbatim
passthrough of the remaining keys. -/
def _build_function_call (function_call : PyVal) : PyVal :=
  match function_call with
  | PyVal.dict d =>
    if d.isEmpty then PyVal.none
    else
      PyVal.dict (passthroughFold
        [("name", normalizeFunctionName (dictGet d "name")),
         ("arguments", normalizeFunctionArguments (dictGet d "arguments"))]
        d ["name", "arguments"])
  | _ => PyVal.none

/-- Embeds `_tool_call_from_function_call`: wrap a normalized function-call dict
into a synthetic tool call and normalize it. -/
def _tool_call_from_function_call (function_call : PyVal) : PyDict :=
  _build_tool_call_delta (PyVal.dict
    [("index", PyVal.int 0),
     ("id", PyVal.none),
     ("type", PyVal.str "function"),
     ("function", function_call)])

/-- The loop state of `_build_delta`: the `processed` output dict under
construction, the accumulated unified tool calls, and the
`tool_calls_was_none` flag. -/
structure DeltaState where
  processed : PyDict
  collected : List PyVal
  toolCallsWasNone : Bool

/-- One iteration of the `_build_delta` loop over a delta item. -/
def _build_delta_step (st : DeltaState) (kv : String × PyVal) : DeltaState :=
  if kv.1 = "tool_calls" then
    if isNone kv.2 then { st with toolCallsWasNone := true }
    else
      let ntc := _build_tool_calls kv.2
      if pyTruthy ntc then { st with collected := st.collected ++ pyListItems ntc }
      else st
  else if kv.1 = "tool_use" then
    let atc := _build_anthropic_tool_use kv.2
    if pyTruthy atc then
      { st with collected := st.collected ++ [atc],
                processed := dictSet st.processed kv.1 atc }
    else st
  else if kv.1 = "function_call" then
    let nfc := _build_function_call kv.2
    if pyTruthy nfc then
      { st with collected := st.collected ++ [PyVal.dict (_tool_call_from_function_call nfc)],
                processed := dictSet st.processed kv.1 nfc }
    else st
  else { st with processed := dictSet st.processed kv.1 kv.2 }

/-- The `_build_delta` loop over all delta items. -/
def _build_delta_fold (items : PyDict) : DeltaState :=
  items.foldl _build_delta_step ⟨[], [], false⟩

/-- The accumulated unified tool calls of `_build_delta`. -/
def deltaCollected (items : PyDict) : List PyVal :=
  (_build_delta_fold items).collected

/-- Embeds `_build_delta`: walk the delta items, then resolve the output
`tool_calls` binding by priority (accumulated calls, explicit `None`,
key-was-present, absent). -/
def _build_delta (delta : PyVal) : PyDict :=
  let delta_dict := match delta with
    | PyVal.dict d => d
    | _ => []
  let st := _build_delta_fold delta_dict
  if st.collected.isEmpty then
    if st.toolCallsWasNone then dictSet st.processed "tool_calls" PyVal.none
    else if dictHas delta_dict "tool_calls" then
      dictSet st.processed "tool_calls" (PyVal.list [])
    else st.processed
  else dictSet st.processed "tool_calls" (PyVal.list st.collected)

/-- The `delta_dict` local of `_build_choice` before the text fallback:
`_build_delta(choice_dict.get("delta") or \x7b\x7d)`. -/
def normalizedChoiceDelta (choice_dict : PyDict) : PyDict :=
  let dv := dictGet choice_dict "delta"
  _build_delta (if pyTruthy dv then dv else PyVal.dict [])

/-- The `delta_dict` local of `_build_choice` after the text-fallback step:
the normalized delta, with `content` set to `str(text)` when the normalized
content is falsy and the choice carries a truthy `text`. -/
def _choice_delta_dict (choice_dict : PyDict) : PyDict :=
  let delta_dict := normalizedChoiceDelta choice_dict
  if pyTruthy (dictGet delta_dict "content") then delta_dict
  else
    let text_fallback := dictGet choice_dict "text"
    if pyTruthy text_fallback then
      dictSet delta_dict "content" (PyVal.str (pyStr text_fallback))
    else delta_dict

/-- Embeds `_build_choice`: non-dict choices are treated as the empty dict; the
output carries `index`, the normalized `delta`, `finish_reason` and
`logprobs`. -/
def _build_choice (choice : PyVal) : PyDict :=
  let choice_dict := match choice with
    | PyVal.dict d => d
    | _ => []
  [("index", dictGet choice_dict "index"),
   ("delta", PyVal.dict (_choice_delta_dict choice_dict)),
   ("finish_reason", dictGet choice_dict "finish_reason"),
   ("logprobs", dictGet choice_dict "logprobs")]

/-- The `choices` local of `_build_chunk_payload`: coerce falsy `choices`
to `[]` and a single non-list choice to a singleton, then normalize each
choice. -/
def chunkChoices (chunk_data : PyDict) : List PyVal :=
  let choices_raw0 := dictGet chunk_data "choices"
  let choices_raw1 := if pyTruthy choices_raw0 then choices_raw0 else PyVal.list []
  let choices_raw := match choices_raw1 with
    | PyVal.list xs => xs
    | v => [v]
  choices_raw.map (fun choice => PyVal.dict (_build_choice choice))

/-- Embeds `_build_chunk_payload`: normalized choices plus the chunk-level fields,
with `usage` included only when the key is present. -/
def _build_chunk_payload (chunk_data : PyDict) : PyDict :=
  let payload : PyDict :=
    [("id", dictGet chunk_data "id"),
     ("created", dictGet chunk_data "created"),
     ("model", dictGet chunk_data "model"),
     ("object", dictGet chunk_data "object"),
     ("system_fingerprint", dictGet chunk_data "system_fingerprint"),
     ("provider_specific_fields", dictGet chunk_data "provider_specific_fields"),
     ("citations", dictGet chunk_data "citations"),
     ("choices", PyVal.list (chunkChoices chunk_data))]
  if dictHas chunk_data "usage" then dictSet payload "usage" (dictGet chunk_data "usage")
  else payload

/-!
Embedding of the streaming variant
(`common/utils.py`, `model_response_stream_to_generic_streaming_chunks`).
Here the input is the typed litellm object graph, so we model it with
records: `Delta.content` and `StreamingChoices.finish_reason` are
`Optional[str]`, and `StreamingChoices.delta` is `Optional[Delta]` (a
pydantic model is always truthy, so `if not delta` tests for `None`).
Generators are modelled as the list of yielded chunks.
-/

/-- Embeds `litellm.types.utils.Delta` (the fields this code path reads). -/
structure Delta where
  content : Option String

/-- Embeds `litellm.StreamingChoices` (the fields this code path reads). -/
structure StreamingChoices where
  finish_reason : Option String
  delta : Option Delta

/-- Embeds `litellm.ModelResponseStream` (the fields this code path reads). -/
structure ModelResponseStream where
  provider_specific_fields : PyVal
  choices : List StreamingChoices

/-- Embeds `litellm.GenericStreamingChunk` (the fields this code path writes). -/
structure GenericStreamingChunk where
  text : Option String
  tool_use : PyVal
  is_finished : Bool
  finish_reason : Option String
  usage : PyVal
  index : Int
  provider_specific_fields : PyVal

/-- Python `bool(x)` for an `Optional[str]`. -/
def optStrTruthy : Option String → Bool
  | Option.none => false
  | some s => ¬ s.isEmpty

/-- Embeds `_populate_tool_use`: tool-call merging is unimplemented (`TODO` in the
source); both branches yield the chunk unchanged. -/
def _populate_tool_use (generic_chunk : GenericStreamingChunk) (delta : Option Delta) :
    List GenericStreamingChunk :=
  match delta with
  | Option.none => [generic_chunk]
  | some _ => [generic_chunk]

/-- Embeds `_populate_from_delta`: copy `delta.content` into `text`, then populate
tool use. -/
def _populate_from_delta (generic_chunk : GenericStreamingChunk) (delta : Option Delta) :
    List GenericStreamingChunk :=
  match delta with
  | Option.none => [generic_chunk]
  | some d => _populate_tool_use { generic_chunk with text := d.content } (some d)

/-- Embeds `_populate_from_streaming_choices`: an empty choice list yields the
chunk as is; otherwise only `choices[0]` is consulted, setting
`finish_reason` and `is_finished = bool(finish_reason)`. -/
def _populate_from_streaming_choices (generic_chunk : GenericStreamingChunk)
    (choices : List StreamingChoices) : List GenericStreamingChunk :=
  match choices with
  | [] => [generic_chunk]
  | choice :: _ =>
    _populate_from_delta
      { generic_chunk with
          finish_reason := choice.finish_reason,
          is_finished := optStrTruthy choice.finish_reason }
      choice.delta

/-- The freshly initialized `GenericStreamingChunk` built at the top of
`model_response_stream_to_generic_streaming_chunks`. -/
def initialGenericChunk (chunk : ModelResponseStream) : GenericStreamingChunk :=
  { text := some "",
    tool_use := PyVal.none,
    is_finished := false,
    finish_reason := some "",
    usage := PyVal.none,
    index := 0,
    provider_specific_fields := chunk.provider_specific_fields }

/-- Embeds `model_response_stream_to_generic_streaming_chunks`. -/
def model_response_stream_to_generic_streaming_chunks (chunk : ModelResponseStream) :
    List GenericStreamingChunk :=
  _populate_from_streaming_choices (initialGenericChunk chunk) chunk.choices

/-- The unified tool calls contributed by one delta item, mirroring the
corresponding branch of the `_build_delta` loop. -/
def toolCallContribution (kv : String × PyVal) : List PyVal :=
  if kv.1 = "tool_calls" then
    if isNone kv.2 then []
    else
      let ntc := _build_tool_calls kv.2
      if pyTruthy ntc then pyListItems ntc else []
  else if kv.1 = "tool_use" then
    let atc := _build_anthropic_tool_use kv.2
    if pyTruthy atc then [atc] else []
  else if kv.1 = "function_call" then
    let nfc := _build_function_call kv.2
    if pyTruthy nfc then [PyVal.dict (_tool_call_from_function_call nfc)] else []
  else []

/-- The unified tool calls contributed by a whole delta dict, in key
iteration order. -/
def toolCallContributions (items : PyDict) : List PyVal :=
  (items.map toolCallContribution).flatten

/-- Whether the `_build_delta` loop writes key `k` into `processed` when it
meets the item `(k, v)`. -/
def stepWritesKey (k : String) (v : PyVal) : Bool :=
  if k = "tool_calls" then false
  else if k = "tool_use" then pyTruthy (_build_anthropic_tool_use v)
  else if k = "function_call" then pyTruthy (_build_function_call v)
  else true

/-- The spec example delta: an Anthropic `tool_use` followed by a legacy
`function_call` (arguments/input are the two-character string `{}`). -/
def exampleToolUseDelta : PyDict :=
  [("tool_use", PyVal.dict [("id", PyVal.str "a"), ("name", PyVal.str "f"),
                            ("input", PyVal.str "\x7b\x7d")]),
   ("function_call", PyVal.dict [("name", PyVal.str "g"),
                                 ("arguments", PyVal.str "\x7b\x7d")])]

/-- Whether a value is a non-empty Python string (the `type` guard
`isinstance(type_value, str) and type_value` of `_build_tool_call_delta`). -/
def isNonEmptyStr : PyVal → Bool
  | PyVal.str s => ¬ s.isEmpty
  | _ => false

/-- The output invariant of C7: a sequence value each of whose elements is
a mapping carrying a `delta` mapping. -/
def choicesWellFormed : PyVal → Bool
  | PyVal.list cs =>
    cs.all (fun c =>
      match c with
      | PyVal.dict ch =>
        match dictFind ch "delta" with
        | some (PyVal.dict _) => true
        | _ => false
      | _ => false)
  | _ => false

/-!
Helper lemmas about the dict primitives.
-/

theorem dictFind_dictSet_self (d : PyDict) (k : String) (v : PyVal) :
    dictFind (dictSet d k v) k = some v := by
  induction d with
  | nil => simp [dictSet, dictFind]
  | cons kv rest ih =>
    by_cases h : kv.1 = k
    · simp [dictSet, dictFind, h]
    · simp [dictSet, dictFind, h, ih]

theorem dictFind_dictSet_ne (d : PyDict) (k1 k2 : String) (v : PyVal) (h : k1 ≠ k2) :
    dictFind (dictSet d k1 v) k2 = dictFind d k2 := by
  induction d with
  | nil => simp [dictSet, dictFind, h]
  | cons kv rest ih =>
    by_cases hk : kv.1 = k1
    · subst hk
      simp [dictSet, dictFind, h]
    · simp [dictSet, dictFind, hk, ih]

theorem dictHas_dictSet_ne (d : PyDict) (k1 k2 : String) (v : PyVal) (h : k1 ≠ k2) :
    dictHas (dictSet d k1 v) k2 = dictHas d k2 := by
  simp [dictHas, dictFind_dictSet_ne d k1 k2 v h]

theorem dictFind_mem {d : PyDict} {k : String} {v : PyVal}
    (h : dictFind d k = some v) : (k, v) ∈ d := by
  induction d with
  | nil => simp [dictFind] at h
  | cons kv rest ih =>
    obtain ⟨k0, v0⟩ := kv
    by_cases hk : k0 = k
    · subst hk
      simp only [dictFind, if_pos] at h
      cases h
      exact List.mem_cons_self _ _
    · simp only [dictFind] at h
      rw [if_neg hk] at h
      exact List.mem_cons_of_mem _ (ih h)

theorem mem_dictFind_of_nodup {d : PyDict} {k : String} {v : PyVal}
    (hnd : (d.map Prod.fst).Nodup) (h : (k, v) ∈ d) : dictFind d k = some v := by
  induction d with
  | nil => simp at h
  | cons kv rest ih =>
    rcases List.mem_cons.mp h with h1 | h1
    · subst h1
      simp [dictFind]
    · have hk : kv.1 ≠ k := by
        intro hkk
        have : kv.1 ∈ rest.map Prod.fst := by
          rw [hkk]
          exact List.mem_map.mpr ⟨(k, v), h1, rfl⟩
        exact (List.nodup_cons.mp (by simpa using hnd)).1 this
      simp only [dictFind, hk, if_neg, if_false]
      exact ih (List.nodup_cons.mp (by simpa using hnd)).2 h1

theorem dictFind_eq_none_of_not_has {d : PyDict} {k : String}
    (h : dictHas d k = false) : dictFind d k = Option.none := by
  unfold dictHas at h
  cases hf : dictFind d k with
  | none => rfl
  | some v => rw [hf] at h; simp at h

theorem dictGet_none_of_not_has {d : PyDict} {k : String}
    (h : dictHas d k = false) : dictGet d k = PyVal.none := by
  simp [dictGet, dictFind_eq_none_of_not_has h]

theorem dictFind_eq_get_of_has {d : PyDict} {k : String}
    (h : dictHas d k = true) : dictFind d k = some (dictGet d k) := by
  unfold dictHas at h
  cases hf : dictFind d k with
  | none => rw [hf] at h; simp at h
  | some v => simp [dictGet, hf]

theorem dictSet_append_of_not_has {d : PyDict} {k : String} (v : PyVal)
    (h : dictHas d k = false) : dictSet d k v = d ++ [(k, v)] := by
  induction d with
  | nil => simp [dictSet]
  | cons kv rest ih =>
    have hk : kv.1 ≠ k := by
      intro hkk
      simp [dictHas, dictFind, hkk] at h
    have hrest : dictHas rest k = false := by
      simpa [dictHas, dictFind, hk] using h
    simp [dictSet, hk, ih hrest]

theorem dictHas_append (a b : PyDict) (k : String) :
    dictHas (a ++ b) k = (dictHas a k || dictHas b k) := by
  induction a with
  | nil => simp [dictHas, dictFind]
  | cons kv rest ih =>
    by_cases hk : kv.1 = k
    · simp [dictHas, dictFind, hk]
    · simpa [dictHas, dictFind, hk] using ih

theorem dictFind_filter_key (d : PyDict) (k : String) (f : String → Bool)
    (hf : f k = true) :
    dictFind (d.filter (fun kv => f kv.1)) k = dictFind d k := by
  induction d with
  | nil => simp
  | cons kv rest ih =>
    by_cases hk : kv.1 = k
    · have hfk : f kv.1 = true := by rw [hk]; exact hf
      simp [List.filter_cons, hfk, hf, dictFind, hk, ih]
    · cases hkv : f kv.1 with
      | true => simp [List.filter_cons, hkv, dictFind, hk, ih]
      | false => simp [List.filter_cons, hkv, dictFind, hk, ih]

/-!
Characterization of the `_build_delta` loop: the accumulated tool calls are
the concatenation, in input key iteration order, of each item's
contribution; the `tool_calls_was_none` flag records an explicit `None`
binding; and the `processed` dict only ever gains a key when the
corresponding branch actually writes it.
-/

theorem collected_step (st : DeltaState) (kv : String × PyVal) :
    (_build_delta_step st kv).collected = st.collected ++ toolCallContribution kv := by
  simp only [_build_delta_step, toolCallContribution]
  repeat' split
  all_goals simp

theorem collected_foldl (items : PyDict) :
    ∀ st : DeltaState,
      (items.foldl _build_delta_step st).collected =
        st.collected ++ toolCallContributions items := by
  induction items with
  | nil => intro st; simp [toolCallContributions]
  | cons kv rest ih =>
    intro st
    simp only [List.foldl_cons]
    rw [ih (_build_delta_step st kv), collected_step]
    simp [toolCallContributions]

theorem deltaCollected_eq (items : PyDict) :
    deltaCollected items = toolCallContributions items := by
  unfold deltaCollected _build_delta_fold
  rw [collected_foldl]
  rfl

theorem wasNone_step (st : DeltaState) (kv : String × PyVal) :
    (_build_delta_step st kv).toolCallsWasNone =
      (st.toolCallsWasNone || (decide (kv.1 = "tool_calls") && isNone kv.2)) := by
  simp only [_build_delta_step]
  repeat' split
  all_goals simp_all

theorem wasNone_foldl (items : PyDict) :
    ∀ st : DeltaState,
      (items.foldl _build_delta_step st).toolCallsWasNone =
        (st.toolCallsWasNone ||
          items.any (fun kv => decide (kv.1 = "tool_calls") && isNone kv.2)) := by
  induction items with
  | nil => intro st; simp
  | cons kv rest ih =>
    intro st
    simp only [List.foldl_cons]
    rw [ih (_build_delta_step st kv), wasNone_step]
    simp [Bool.or_assoc]

theorem processed_step_not_has (st : DeltaState) (kv : String × PyVal) (k : String)
    (h1 : dictHas st.processed k = false)
    (h2 : kv.1 = k → stepWritesKey k kv.2 = false) :
    dictHas (_build_delta_step st kv).processed k = false := by
  by_cases hk : kv.1 = k
  · subst hk
    have hw := h2 rfl
    simp only [_build_delta_step]
    simp only [stepWritesKey] at hw
    repeat' split
    all_goals simp_all
  · simp only [_build_delta_step]
    repeat' split
    all_goals try simp_all
    all_goals (rw [dictHas_dictSet_ne _ _ _ _ (by simp_all)]; exact h1)

theorem processed_foldl_not_has (k : String) (items : PyDict) :
    ∀ st : DeltaState,
      dictHas st.processed k = false →
      (∀ v, (k, v) ∈ items → stepWritesKey k v = false) →
      dictHas ((items.foldl _build_delta_step st).processed) k = false := by
  induction items with
  | nil => intro st h1 _; simpa using h1
  | cons kv rest ih =>
    intro st h1 h2
    simp only [List.foldl_cons]
    refine ih (_build_delta_step st kv) ?_ ?_
    · refine processed_step_not_has st kv k h1 ?_
      intro hk
      refine h2 kv.2 ?_
      rw [← hk]
      exact List.mem_cons_self _ _
    · intro v hv
      exact h2 v (List.mem_cons_of_mem _ hv)

/-!
Lemmas about the passthrough loop.
-/

theorem dictFind_passthroughFold_skip (skip : List String) (k : String)
    (hk : skip.contains k = true) :
    ∀ (src init : PyDict),
      dictFind (passthroughFold init src skip) k = dictFind init k := by
  intro src
  induction src with
  | nil => intro init; rfl
  | cons kv rest ih =>
    intro init
    show dictFind (passthroughFold
      (if skip.contains kv.1 then init else dictSet init kv.1 kv.2) rest skip) k = _
    by_cases hkv : skip.contains kv.1 = true
    · rw [if_pos hkv, ih]
    · rw [if_neg hkv, ih]
      have hne : kv.1 ≠ k := by
        intro h
        rw [h, hk] at hkv
        exact hkv rfl
      exact dictFind_dictSet_ne init kv.1 k kv.2 hne

theorem passthroughFold_append (skip : List String) :
    ∀ (src init : PyDict),
      (src.map Prod.fst).Nodup →
      (∀ kv ∈ src, skip.contains kv.1 = false → dictHas init kv.1 = false) →
      passthroughFold init src skip =
        init ++ src.filter (fun kv => ! skip.contains kv.1) := by
  intro src
  induction src with
  | nil => intro init _ _; simp [passthroughFold]
  | cons kv rest ih =>
    intro init hnd hdisj
    have hnd1 : (rest.map Prod.fst).Nodup := (List.nodup_cons.mp (by simpa using hnd)).2
    have hkv1 : kv.1 ∉ rest.map Prod.fst := (List.nodup_cons.mp (by simpa using hnd)).1
    show passthroughFold (if skip.contains kv.1 then init else dictSet init kv.1 kv.2)
      rest skip = _
    by_cases hsk : skip.contains kv.1 = true
    · rw [if_pos hsk, ih init hnd1 (fun kv2 h2 => hdisj kv2 (List.mem_cons_of_mem _ h2))]
      have hmem : kv.1 ∈ skip := by simpa using hsk
      simp [List.filter_cons, hmem]
    · have hsk2 : skip.contains kv.1 = false := by
        cases h : skip.contains kv.1 with
        | true => exact absurd h hsk
        | false => rfl
      have hinit : dictHas init kv.1 = false :=
        hdisj kv (List.mem_cons_self _ _) hsk2
      rw [if_neg hsk, dictSet_append_of_not_has kv.2 hinit]
      rw [ih (init ++ [(kv.1, kv.2)]) hnd1 ?_]
      · have hmem : kv.1 ∉ skip := by simpa using hsk2
        simp [List.filter_cons, hmem]
      · intro kv2 h2 hsk3
        rw [dictHas_append]
        have h1 : dictHas init kv2.1 = false :=
          hdisj kv2 (List.mem_cons_of_mem _ h2) hsk3
        have hne : kv.1 ≠ kv2.1 := by
          intro h
          exact hkv1 (h ▸ List.mem_map.mpr ⟨kv2, h2, rfl⟩)
        have h2b : dictHas [(kv.1, kv.2)] kv2.1 = false := by
          simp [dictHas, dictFind, hne]
        rw [h1, h2b]
        rfl

/-- Truth of `isNone` decodes to an equality with `None`. -/
theorem isNone_iff (v : PyVal) : isNone v = true ↔ v = PyVal.none := by
  cases v <;> simp [isNone]

/-!
The four-way priority resolution of the output `tool_calls` binding.
-/

theorem dictHas_of_mem {d : PyDict} {kv : String × PyVal} (h : kv ∈ d) :
    dictHas d kv.1 = true := by
  induction d with
  | nil => simp at h
  | cons kv0 rest ih =>
    rcases List.mem_cons.mp h with h1 | h1
    · subst h1; simp [dictHas, dictFind]
    · by_cases hk : kv0.1 = kv.1
      · simp [dictHas, dictFind, hk]
      · simpa [dictHas, dictFind, hk] using ih h1

theorem out_toolcalls_nonempty (items : PyDict) (h : deltaCollected items ≠ []) :
    dictFind (_build_delta (PyVal.dict items)) "tool_calls" =
      some (PyVal.list (deltaCollected items)) := by
  have hC : deltaCollected items = (_build_delta_fold items).collected := rfl
  simp only [_build_delta]
  cases hc : (_build_delta_fold items).collected with
  | nil => exact absurd (hC.trans hc) h
  | cons a l =>
    simp [dictFind_dictSet_self, hC, hc]

theorem out_toolcalls_null (items : PyDict)
    (h0 : deltaCollected items = [])
    (h1 : dictFind items "tool_calls" = some PyVal.none) :
    dictFind (_build_delta (PyVal.dict items)) "tool_calls" = some PyVal.none := by
  have hc : (_build_delta_fold items).collected = [] := h0
  have hw : (_build_delta_fold items).toolCallsWasNone = true := by
    unfold _build_delta_fold
    rw [wasNone_foldl]
    simp only [Bool.false_or]
    refine List.any_eq_true.mpr ⟨("tool_calls", PyVal.none), dictFind_mem h1, ?_⟩
    simp [isNone]
  simp only [_build_delta, hc, hw, List.isEmpty_nil, if_true]
  exact dictFind_dictSet_self _ _ _

theorem out_toolcalls_empty (items : PyDict) (hnd : (items.map Prod.fst).Nodup)
    (h0 : deltaCollected items = [])
    (h1 : dictHas items "tool_calls" = true)
    (h2 : dictFind items "tool_calls" ≠ some PyVal.none) :
    dictFind (_build_delta (PyVal.dict items)) "tool_calls" = some (PyVal.list []) := by
  have hc : (_build_delta_fold items).collected = [] := h0
  have hw : (_build_delta_fold items).toolCallsWasNone = false := by
    unfold _build_delta_fold
    rw [wasNone_foldl]
    simp only [Bool.false_or]
    cases ha : items.any (fun kv => decide (kv.1 = "tool_calls") && isNone kv.2) with
    | false => rfl
    | true =>
      exfalso
      rcases List.any_eq_true.mp ha with ⟨kv, hmem, hkv⟩
      simp only [Bool.and_eq_true] at hkv
      rcases hkv with ⟨hk, hn⟩
      have hk2 : kv.1 = "tool_calls" := of_decide_eq_true hk
      have hn2 : kv.2 = PyVal.none := (isNone_iff kv.2).mp hn
      have : dictFind items kv.1 = some kv.2 := mem_dictFind_of_nodup hnd (by simpa using hmem)
      rw [hk2, hn2] at this
      exact h2 this
  simp only [_build_delta, hc, hw, List.isEmpty_nil, if_true, Bool.false_eq_true, if_false, h1]
  exact dictFind_dictSet_self _ _ _

theorem out_toolcalls_absent (items : PyDict)
    (h0 : deltaCollected items = [])
    (h1 : dictHas items "tool_calls" = false) :
    dictHas (_build_delta (PyVal.dict items)) "tool_calls" = false := by
  have hc : (_build_delta_fold items).collected = [] := h0
  have hw : (_build_delta_fold items).toolCallsWasNone = false := by
    unfold _build_delta_fold
    rw [wasNone_foldl]
    simp only [Bool.false_or]
    cases ha : items.any (fun kv => decide (kv.1 = "tool_calls") && isNone kv.2) with
    | false => rfl
    | true =>
      exfalso
      rcases List.any_eq_true.mp ha with ⟨kv, hmem, hkv⟩
      simp only [Bool.and_eq_true] at hkv
      rcases hkv with ⟨hk, _⟩
      have hk2 : kv.1 = "tool_calls" := of_decide_eq_true hk
      have := dictHas_of_mem hmem
      rw [hk2, h1] at this
      exact Bool.false_ne_true this
  simp only [_build_delta, hc, hw, List.isEmpty_nil, if_true, Bool.false_eq_true, if_false, h1]
  refine processed_foldl_not_has "tool_calls" items ⟨[], [], false⟩ rfl ?_
  intro v _
  rfl

/-!
The claims.
-/

/-- C1: delta normalization folds every tool-call-like signal
(`tool_calls`, `tool_use`, `function_call`) into one unified output
`tool_calls` sequence, none silently dropped, in input key iteration
order (`tool_calls` entries first, then `tool_use`-derived, then
`function_call`-derived when the keys iterate in that order); on the spec
example the output has exactly two entries, named `f` then `g`. -/
theorem tool_call_signals_unified :
    (∀ items : PyDict, deltaCollected items = toolCallContributions items) ∧
    (∀ items : PyDict, deltaCollected items ≠ [] →
      dictFind (_build_delta (PyVal.dict items)) "tool_calls" =
        some (PyVal.list (deltaCollected items))) ∧
    (∀ v1 v2 v3 : PyVal,
      deltaCollected [("tool_calls", v1), ("tool_use", v2), ("function_call", v3)] =
        toolCallContribution ("tool_calls", v1) ++ toolCallContribution ("tool_use", v2) ++
          toolCallContribution ("function_call", v3)) ∧
    dictFind (_build_delta (PyVal.dict exampleToolUseDelta)) "tool_calls" =
      some (PyVal.list
        [PyVal.dict [("index", PyVal.int 0), ("id", PyVal.str "a"),
                     ("type", PyVal.str "function"),
                     ("function", PyVal.dict [("name", PyVal.str "f"),
                                              ("arguments", PyVal.str "\x7b\x7d")])],
         PyVal.dict [("index", PyVal.int 0), ("id", PyVal.none),
                     ("type", PyVal.str "function"),
                     ("function", PyVal.dict [("name", PyVal.str "g"),
                                              ("arguments", PyVal.str "\x7b\x7d")])]]) := by
  refine ⟨deltaCollected_eq, out_toolcalls_nonempty, ?_, rfl⟩
  intro v1 v2 v3
  simp [deltaCollected_eq, toolCallContributions]

/-- Witness for C1 at the spec example input. -/
theorem tool_call_signals_unified_witness :
    deltaCollected exampleToolUseDelta ≠ [] ∧
    dictFind (_build_delta (PyVal.dict exampleToolUseDelta)) "tool_calls" =
      some (PyVal.list (deltaCollected exampleToolUseDelta)) := by
  have hne : deltaCollected exampleToolUseDelta ≠ [] := by
    have h2 : (deltaCollected exampleToolUseDelta).length = 2 := rfl
    intro h
    rw [h] at h2
    simp at h2
  exact ⟨hne, tool_call_signals_unified.2.1 exampleToolUseDelta hne⟩

/-- C2: the output `tool_calls` binding is resolved by priority: the
accumulated sequence when non-empty; else `None` when the input bound
`tool_calls` explicitly to `None`; else the empty sequence when the input
had a `tool_calls` key at all; else the key is absent.  Concretely,
`{"tool_calls": None}` maps to `tool_calls: None`, `{}` has no
`tool_calls` key, and `{"tool_calls": []}` maps to `tool_calls: []`. -/
theorem tool_calls_priority_resolution :
    (∀ items : PyDict, (items.map Prod.fst).Nodup →
      (deltaCollected items ≠ [] →
        dictFind (_build_delta (PyVal.dict items)) "tool_calls" =
          some (PyVal.list (deltaCollected items))) ∧
      (deltaCollected items = [] → dictFind items "tool_calls" = some PyVal.none →
        dictFind (_build_delta (PyVal.dict items)) "tool_calls" = some PyVal.none) ∧
      (deltaCollected items = [] → dictHas items "tool_calls" = true →
        dictFind items "tool_calls" ≠ some PyVal.none →
        dictFind (_build_delta (PyVal.dict items)) "tool_calls" = some (PyVal.list [])) ∧
      (deltaCollected items = [] → dictHas items "tool_calls" = false →
        dictHas (_build_delta (PyVal.dict items)) "tool_calls" = false)) ∧
    _build_delta (PyVal.dict [("tool_calls", PyVal.none)]) = [("tool_calls", PyVal.none)] ∧
    _build_delta (PyVal.dict []) = [] ∧
    _build_delta (PyVal.dict [("tool_calls", PyVal.list [])]) =
      [("tool_calls", PyVal.list [])] :=
  ⟨fun items hnd =>
    ⟨out_toolcalls_nonempty items, out_toolcalls_null items,
     out_toolcalls_empty items hnd, out_toolcalls_absent items⟩,
   rfl, rfl, rfl⟩

/-- Witness for C2 at the explicit-null input. -/
theorem tool_calls_priority_resolution_witness :
    dictFind (_build_delta (PyVal.dict [("tool_calls", PyVal.none)])) "tool_calls" =
      some PyVal.none :=
  ((tool_calls_priority_resolution.1 [("tool_calls", PyVal.none)] (by simp)).2.1) rfl rfl

/-- C3: the normalized `function` field of a tool call is resolved in
order: an explicit `function` object wins (the result only depends on
it); otherwise the flattened top-level `{name, arguments}` pair is used
when a `name` or `arguments` key exists; with neither, `function`
resolves to `None`. -/
theorem function_field_resolution_order :
    ∀ d : PyDict,
      (∀ fd : PyDict, dictGet d "function" = PyVal.dict fd →
        _build_tool_call_function d =
          _build_tool_call_function [("function", PyVal.dict fd)]) ∧
      (dictGet d "function" = PyVal.none →
        (dictHas d "name" = true ∨ dictHas d "arguments" = true) →
        _build_tool_call_function d =
          _build_tool_call_function [("name", dictGet d "name"),
                                     ("arguments", dictGet d "arguments")]) ∧
      (dictGet d "function" = PyVal.none → dictHas d "name" = false →
        dictHas d "arguments" = false → _build_tool_call_function d = PyVal.none) := by
  intro d
  refine ⟨?_, ?_, ?_⟩
  · intro fd hfd
    simp only [_build_tool_call_function]
    rw [hfd]
    rfl
  · intro hf hna
    simp only [_build_tool_call_function]
    rw [hf]
    rcases hna with h | h <;> simp only [h, isNone, Bool.or_true] <;> rfl
  · intro hf hn ha
    simp only [_build_tool_call_function]
    rw [hf, hn, ha]
    rfl

/-- Witness for C3 at three concrete tool calls: one with an explicit
function object (top-level name ignored), one with only a flattened pair,
one with neither. -/
theorem function_field_resolution_order_witness :
    (_build_tool_call_function [("function", PyVal.dict [("name", PyVal.str "f")]),
                                ("name", PyVal.str "top")] =
      _build_tool_call_function [("function", PyVal.dict [("name", PyVal.str "f")])]) ∧
    (_build_tool_call_function [("name", PyVal.str "g")] =
      _build_tool_call_function [("name", PyVal.str "g"), ("arguments", PyVal.none)]) ∧
    _build_tool_call_function [("other", PyVal.int 1)] = PyVal.none :=
  ⟨((function_field_resolution_order
      [("function", PyVal.dict [("name", PyVal.str "f")]), ("name", PyVal.str "top")]).1)
      [("name", PyVal.str "f")] rfl,
   ((function_field_resolution_order [("name", PyVal.str "g")]).2.1) rfl (Or.inl rfl),
   ((function_field_resolution_order [("other", PyVal.int 1)]).2.2) rfl rfl rfl⟩

/-- C4 counterexample: a non-mapping `function` entry is NOT treated as an
empty mapping: `{"function": "not-a-mapping"}` resolves `function` to
`None`, while an actual empty mapping resolves to a
`{name: None, arguments: None}` object. -/
theorem non_mapping_function_counterexample :
    _build_tool_call_function [("function", PyVal.str "not-a-mapping")] = PyVal.none ∧
    _build_tool_call_function [("function", PyVal.dict [])] =
      PyVal.dict [("name", PyVal.none), ("arguments", PyVal.none)] ∧
    _build_tool_call_function [("function", PyVal.str "not-a-mapping")] ≠
      _build_tool_call_function [("function", PyVal.dict [])] := by
  refine ⟨rfl, rfl, ?_⟩
  intro h
  have h2 : PyVal.none = PyVal.dict [("name", PyVal.none), ("arguments", PyVal.none)] := h
  exact PyVal.noConfusion h2

/-- C4 (amended): normalization is total and never raises; non-mapping
choice, delta and tool-call entries are treated as empty mappings, while a
non-mapping non-null `function` entry is treated as absent (`function`
resolves to `None`); a choice with no keys at all normalizes fine. -/
theorem defensive_non_mapping_handling :
    (∀ v : PyVal, isDict v = false →
      _build_choice v = _build_choice (PyVal.dict []) ∧
      _build_delta v = _build_delta (PyVal.dict []) ∧
      _build_tool_call_delta v = _build_tool_call_delta (PyVal.dict []) ∧
      (isNone v = false → ∀ d : PyDict, dictGet d "function" = v →
        _build_tool_call_function d = PyVal.none)) ∧
    _build_choice (PyVal.dict []) =
      [("index", PyVal.none), ("delta", PyVal.dict []),
       ("finish_reason", PyVal.none), ("logprobs", PyVal.none)] := by
  refine ⟨?_, rfl⟩
  intro v hv
  refine ⟨?_, ?_, ?_, ?_⟩
  · cases v <;> first | rfl | simp [isDict] at hv
  · cases v <;> first | rfl | simp [isDict] at hv
  · cases v <;> first | rfl | simp [isDict] at hv
  · intro hn d hd
    simp only [_build_tool_call_function, hd]
    cases v <;> simp_all [isNone, isDict]

/-- Witness for C4 (amended) at a non-mapping string entry. -/
theorem defensive_non_mapping_handling_witness :
    _build_choice (PyVal.str "x") = _build_choice (PyVal.dict []) ∧
    _build_tool_call_function [("function", PyVal.str "x")] = PyVal.none :=
  ⟨(defensive_non_mapping_handling.1 (PyVal.str "x") rfl).1,
   (defensive_non_mapping_handling.1 (PyVal.str "x") rfl).2.2.2 rfl
     [("function", PyVal.str "x")] rfl⟩

/-!
Canonical-field lookups on a normalized tool call: the passthrough loop
never touches the four canonical keys, so their bindings are the
normalized ones.
-/

theorem find_delta_index (d : PyDict) :
    dictFind (_build_tool_call_delta (PyVal.dict d)) "index" =
      some (PyVal.int (normalizeToolCallIndex d)) := by
  simp only [_build_tool_call_delta]
  rw [dictFind_passthroughFold_skip toolCallCanonicalKeys "index" rfl]
  rfl

theorem find_delta_id (d : PyDict) :
    dictFind (_build_tool_call_delta (PyVal.dict d)) "id" =
      some (normalizeToolCallId d) := by
  simp only [_build_tool_call_delta]
  rw [dictFind_passthroughFold_skip toolCallCanonicalKeys "id" rfl]
  rfl

theorem find_delta_type (d : PyDict) :
    dictFind (_build_tool_call_delta (PyVal.dict d)) "type" =
      some (normalizeToolCallType d) := by
  simp only [_build_tool_call_delta]
  rw [dictFind_passthroughFold_skip toolCallCanonicalKeys "type" rfl]
  rfl

theorem find_delta_function (d : PyDict) :
    dictFind (_build_tool_call_delta (PyVal.dict d)) "function" =
      some (_build_tool_call_function d) := by
  simp only [_build_tool_call_delta]
  rw [dictFind_passthroughFold_skip toolCallCanonicalKeys "function" rfl]
  rfl

/-- C5: in a normalized tool call, `index` is coerced to an integer
(missing or non-coercible values become 0; `"2"` becomes 2,
`"not-a-number"` becomes 0), `type` is the given value when it is a
non-empty string and `"function"` otherwise, and `id` keeps strings and
`None` but stringifies any other value. -/
theorem tool_call_scalar_field_coercion :
    (∀ d : PyDict,
      (dictGet d "index" = PyVal.none →
        dictFind (_build_tool_call_delta (PyVal.dict d)) "index" = some (PyVal.int 0)) ∧
      (∀ v, dictGet d "index" = v → isNone v = false → pyToInt v = Option.none →
        dictFind (_build_tool_call_delta (PyVal.dict d)) "index" = some (PyVal.int 0)) ∧
      (∀ v i, dictGet d "index" = v → isNone v = false → pyToInt v = some i →
        dictFind (_build_tool_call_delta (PyVal.dict d)) "index" = some (PyVal.int i)) ∧
      (isNonEmptyStr (dictGet d "type") = true →
        dictFind (_build_tool_call_delta (PyVal.dict d)) "type" =
          some (dictGet d "type")) ∧
      (isNonEmptyStr (dictGet d "type") = false →
        dictFind (_build_tool_call_delta (PyVal.dict d)) "type" =
          some (PyVal.str "function")) ∧
      (∀ s, dictGet d "id" = PyVal.str s →
        dictFind (_build_tool_call_delta (PyVal.dict d)) "id" = some (PyVal.str s)) ∧
      (dictGet d "id" = PyVal.none →
        dictFind (_build_tool_call_delta (PyVal.dict d)) "id" = some PyVal.none) ∧
      (∀ v, dictGet d "id" = v → isNone v = false → (∀ s, v ≠ PyVal.str s) →
        dictFind (_build_tool_call_delta (PyVal.dict d)) "id" =
          some (PyVal.str (pyStr v)))) ∧
    dictFind (_build_tool_call_delta (PyVal.dict [("index", PyVal.str "2")])) "index" =
      some (PyVal.int 2) ∧
    dictFind (_build_tool_call_delta (PyVal.dict [("index", PyVal.str "not-a-number")]))
        "index" = some (PyVal.int 0) := by
  refine ⟨?_, rfl, rfl⟩
  intro d
  refine ⟨?_, ?_, ?_, ?_, ?_, ?_, ?_, ?_⟩
  · intro h
    rw [find_delta_index]
    have hi : normalizeToolCallIndex d = 0 := by
      simp [normalizeToolCallIndex, h]
    rw [hi]
  · intro v hv hn hp
    rw [find_delta_index]
    have hi : normalizeToolCallIndex d = 0 := by
      simp only [normalizeToolCallIndex, hv]
      cases v <;> simp_all [isNone]
    rw [hi]
  · intro v i hv hn hp
    rw [find_delta_index]
    have hi : normalizeToolCallIndex d = i := by
      simp only [normalizeToolCallIndex, hv]
      cases v <;> simp_all [isNone]
    rw [hi]
  · intro h
    rw [find_delta_type]
    have ht : normalizeToolCallType d = dictGet d "type" := by
      simp only [normalizeToolCallType]
      cases hv : dictGet d "type" <;> simp_all [isNonEmptyStr]
    rw [ht]
  · intro h
    rw [find_delta_type]
    have ht : normalizeToolCallType d = PyVal.str "function" := by
      simp only [normalizeToolCallType]
      cases hv : dictGet d "type" <;> simp_all [isNonEmptyStr]
    rw [ht]
  · intro s hs
    rw [find_delta_id]
    have hi : normalizeToolCallId d = PyVal.str s := by
      simp [normalizeToolCallId, hs]
    rw [hi]
  · intro h
    rw [find_delta_id]
    have hi : normalizeToolCallId d = PyVal.none := by
      simp [normalizeToolCallId, h]
    rw [hi]
  · intro v hv hn hns
    rw [find_delta_id]
    have hi : normalizeToolCallId d = PyVal.str (pyStr v) := by
      simp only [normalizeToolCallId, hv]
      cases v with
      | none => simp [isNone] at hn
      | str s => exact absurd rfl (hns s)
      | bool b => rfl
      | int n => rfl
      | list l => rfl
      | dict l => rfl
    rw [hi]

/-- Witness for C5 at concrete tool calls: string index `"2"`, a
non-coercible index, a non-empty string type, an integer id. -/
theorem tool_call_scalar_field_coercion_witness :
    dictFind (_build_tool_call_delta (PyVal.dict [("index", PyVal.str "2")])) "index" =
      some (PyVal.int 2) ∧
    dictFind (_build_tool_call_delta
      (PyVal.dict [("index", PyVal.str "not-a-number")])) "index" = some (PyVal.int 0) ∧
    dictFind (_build_tool_call_delta (PyVal.dict [("type", PyVal.str "custom")])) "type" =
      some (PyVal.str "custom") ∧
    dictFind (_build_tool_call_delta (PyVal.dict [("id", PyVal.int 7)])) "id" =
      some (PyVal.str "7") :=
  ⟨((tool_call_scalar_field_coercion.1 [("index", PyVal.str "2")]).2.2.1)
      (PyVal.str "2") 2 rfl rfl rfl,
   ((tool_call_scalar_field_coercion.1 [("index", PyVal.str "not-a-number")]).2.1)
      (PyVal.str "not-a-number") rfl rfl rfl,
   ((tool_call_scalar_field_coercion.1 [("type", PyVal.str "custom")]).2.2.2.1) rfl,
   ((tool_call_scalar_field_coercion.1 [("id", PyVal.int 7)]).2.2.2.2.2.2.2)
      (PyVal.int 7) rfl rfl (fun _ h => PyVal.noConfusion h)⟩

/-- The `delta` binding of a normalized choice is the post-fallback delta
dict. -/
theorem find_choice_delta (choice_dict : PyDict) :
    dictFind (_build_choice (PyVal.dict choice_dict)) "delta" =
      some (PyVal.dict (_choice_delta_dict choice_dict)) := rfl

/-- C6: when the normalized delta's `content` is falsy and the choice
carries a truthy `text`, the output delta is the normalized delta with
`content` set to `str(text)`; when the normalized delta's `content` is
truthy, it wins and `text` is ignored.  Concretely, `text "hello"` with an
empty delta yields content `"hello"`, and with content `"existing"` the
existing content survives. -/
theorem text_fallback_content :
    (∀ cd : PyDict,
      (pyTruthy (dictGet (normalizedChoiceDelta cd) "content") = false →
        pyTruthy (dictGet cd "text") = true →
        dictFind (_build_choice (PyVal.dict cd)) "delta" =
          some (PyVal.dict (dictSet (normalizedChoiceDelta cd) "content"
            (PyVal.str (pyStr (dictGet cd "text")))))) ∧
      (pyTruthy (dictGet (normalizedChoiceDelta cd) "content") = true →
        dictFind (_build_choice (PyVal.dict cd)) "delta" =
          some (PyVal.dict (normalizedChoiceDelta cd)))) ∧
    dictFind (_build_choice (PyVal.dict [("text", PyVal.str "hello"),
        ("delta", PyVal.dict [])])) "delta" =
      some (PyVal.dict [("content", PyVal.str "hello")]) ∧
    dictFind (_build_choice (PyVal.dict [("text", PyVal.str "hello"),
        ("delta", PyVal.dict [("content", PyVal.str "existing")])])) "delta" =
      some (PyVal.dict [("content", PyVal.str "existing")]) := by
  refine ⟨?_, rfl, rfl⟩
  intro cd
  constructor
  · intro h1 h2
    rw [find_choice_delta]
    simp [_choice_delta_dict, h1, h2]
  · intro h1
    rw [find_choice_delta]
    simp [_choice_delta_dict, h1]

/-- Witness for C6 at the two spec example choices. -/
theorem text_fallback_content_witness :
    dictFind (_build_choice (PyVal.dict [("text", PyVal.str "hello"),
        ("delta", PyVal.dict [])])) "delta" =
      some (PyVal.dict (dictSet
        (normalizedChoiceDelta [("text", PyVal.str "hello"), ("delta", PyVal.dict [])])
        "content" (PyVal.str (pyStr (dictGet [("text", PyVal.str "hello"),
          ("delta", PyVal.dict [])] "text"))))) ∧
    dictFind (_build_choice (PyVal.dict [("text", PyVal.str "hello"),
        ("delta", PyVal.dict [("content", PyVal.str "existing")])])) "delta" =
      some (PyVal.dict (normalizedChoiceDelta [("text", PyVal.str "hello"),
        ("delta", PyVal.dict [("content", PyVal.str "existing")])])) :=
  ⟨((text_fallback_content.1 [("text", PyVal.str "hello"),
      ("delta", PyVal.dict [])]).1) rfl rfl,
   ((text_fallback_content.1 [("text", PyVal.str "hello"),
      ("delta", PyVal.dict [("content", PyVal.str "existing")])]).2) rfl⟩

/-- The `choices` binding of the output payload is the normalized choice
list, whether or not `usage` is appended. -/
theorem find_payload_choices (chunk_data : PyDict) :
    dictFind (_build_chunk_payload chunk_data) "choices" =
      some (PyVal.list (chunkChoices chunk_data)) := by
  simp only [_build_chunk_payload]
  by_cases h : dictHas chunk_data "usage" = true
  · rw [if_pos h, dictFind_dictSet_ne _ _ _ _ (by decide)]
    rfl
  · rw [if_neg h]
    rfl

/-- C7: for every input chunk dict the output `choices` binding is always
a sequence (never null or absent) and every element of it is a mapping
carrying a `delta` mapping. -/
theorem choices_always_sequence_of_delta_dicts :
    ∀ chunk_data : PyDict,
      choicesWellFormed (dictGet (_build_chunk_payload chunk_data) "choices") = true := by
  intro chunk_data
  unfold dictGet
  rw [find_payload_choices]
  show choicesWellFormed (PyVal.list (chunkChoices chunk_data)) = true
  simp only [choicesWellFormed]
  rw [List.all_eq_true]
  intro x hx
  simp only [chunkChoices] at hx
  rcases List.mem_map.mp hx with ⟨c, _, rfl⟩
  rfl

/-- Python `bool(finish_reason)` is true exactly for a non-empty string. -/
theorem optStrTruthy_iff (o : Option String) :
    optStrTruthy o = true ↔ ∃ s, o = some s ∧ s ≠ "" := by
  cases o with
  | none => simp [optStrTruthy]
  | some s => simp [optStrTruthy, String.isEmpty_iff]

/-- On a chunk with at least one choice, the streaming variant yields the
single chunk derived from the first choice: `finish_reason` and
`is_finished` from it, `text` from its delta's content when present. -/
theorem stream_result (pf : PyVal) (c : StreamingChoices) (rest : List StreamingChoices) :
    model_response_stream_to_generic_streaming_chunks ⟨pf, c :: rest⟩ =
      [{ text := match c.delta with
           | Option.none => some ""
           | some d => d.content,
         tool_use := PyVal.none,
         is_finished := optStrTruthy c.finish_reason,
         finish_reason := c.finish_reason,
         usage := PyVal.none,
         index := 0,
         provider_specific_fields := pf }] := by
  cases hd : c.delta <;>
    simp [model_response_stream_to_generic_streaming_chunks,
      _populate_from_streaming_choices, _populate_from_delta, _populate_tool_use,
      initialGenericChunk, hd]

/-- C8: the streaming variant yields exactly one generic chunk per input
chunk; with zero choices it is the freshly initialized chunk (chunk-level
fields only); otherwise it is derived from `choices[0]` alone (further
choices are ignored) and its `is_finished` is true exactly when that first
choice's `finish_reason` is a non-empty string. -/
theorem streaming_variant_first_choice_only :
    ∀ chunk : ModelResponseStream,
      (model_response_stream_to_generic_streaming_chunks chunk).length = 1 ∧
      (chunk.choices = [] →
        model_response_stream_to_generic_streaming_chunks chunk =
          [initialGenericChunk chunk]) ∧
      (∀ c rest, chunk.choices = c :: rest →
        model_response_stream_to_generic_streaming_chunks chunk =
          model_response_stream_to_generic_streaming_chunks
            ⟨chunk.provider_specific_fields, [c]⟩ ∧
        ∀ g, model_response_stream_to_generic_streaming_chunks chunk = [g] →
          (g.is_finished = true ↔ ∃ s, c.finish_reason = some s ∧ s ≠ "")) := by
  intro chunk
  obtain ⟨pf, choices⟩ := chunk
  cases choices with
  | nil => exact ⟨rfl, fun _ => rfl, fun c rest h => absurd h (List.cons_ne_nil c rest).symm⟩
  | cons c rest =>
    refine ⟨?_, fun h => absurd h (List.cons_ne_nil c rest), ?_⟩
    · rw [stream_result]
      rfl
    · intro c2 rest2 h
      obtain ⟨h1, h2⟩ := List.cons.inj h
      subst h1
      subst h2
      refine ⟨?_, ?_⟩
      · show model_response_stream_to_generic_streaming_chunks ⟨pf, c :: rest⟩ =
          model_response_stream_to_generic_streaming_chunks ⟨pf, [c]⟩
        rw [stream_result pf c rest, stream_result pf c []]
      · intro g hg
        rw [stream_result] at hg
        have h3 := (List.cons.inj hg).1
        rw [← h3]
        exact optStrTruthy_iff c.finish_reason

/-- Witness for C8 at a zero-choice chunk and at a two-choice chunk whose
first choice finished with reason `"stop"` and content `"hi"`. -/
theorem streaming_variant_first_choice_only_witness :
    model_response_stream_to_generic_streaming_chunks ⟨PyVal.none, []⟩ =
      [initialGenericChunk ⟨PyVal.none, []⟩] ∧
    model_response_stream_to_generic_streaming_chunks
        ⟨PyVal.none, [⟨some "stop", some ⟨some "hi"⟩⟩, ⟨Option.none, Option.none⟩]⟩ =
      model_response_stream_to_generic_streaming_chunks
        ⟨PyVal.none, [⟨some "stop", some ⟨some "hi"⟩⟩]⟩ ∧
    ({ text := some "hi", tool_use := PyVal.none, is_finished := true,
       finish_reason := some "stop", usage := PyVal.none, index := 0,
       provider_specific_fields := PyVal.none } : GenericStreamingChunk).is_finished = true :=
  ⟨(streaming_variant_first_choice_only ⟨PyVal.none, []⟩).2.1 rfl,
   (((streaming_variant_first_choice_only
       ⟨PyVal.none, [⟨some "stop", some ⟨some "hi"⟩⟩, ⟨Option.none, Option.none⟩]⟩).2.2)
       ⟨some "stop", some ⟨some "hi"⟩⟩ [⟨Option.none, Option.none⟩] rfl).1,
   ((((streaming_variant_first_choice_only
       ⟨PyVal.none, [⟨some "stop", some ⟨some "hi"⟩⟩, ⟨Option.none, Option.none⟩]⟩).2.2)
       ⟨some "stop", some ⟨some "hi"⟩⟩ [⟨Option.none, Option.none⟩] rfl).2
       { text := some "hi", tool_use := PyVal.none, is_finished := true,
         finish_reason := some "stop", usage := PyVal.none, index := 0,
         provider_specific_fields := PyVal.none } rfl).mpr
     ⟨"stop", rfl, by decide⟩⟩

/-- A null, non-mapping, or empty-mapping value yields no Anthropic tool
call and no normalized function call. -/
theorem bad_signal_builds_none (v : PyVal)
    (hbad : isNone v = true ∨ isDict v = false ∨ v = PyVal.dict []) :
    _build_anthropic_tool_use v = PyVal.none ∧ _build_function_call v = PyVal.none := by
  rcases hbad with h | h | h
  · rw [(isNone_iff v).mp h]
    exact ⟨rfl, rfl⟩
  · cases v <;> simp_all [isDict, _build_anthropic_tool_use, _build_function_call]
  · rw [h]
    exact ⟨rfl, rfl⟩

/-- C9: when the value under `tool_use` or `function_call` is null, not a
mapping, or an empty mapping, the output delta omits that key entirely and
no tool call is derived from it. -/
theorem empty_tool_signal_keys_omitted :
    ∀ (items : PyDict) (v : PyVal), (items.map Prod.fst).Nodup →
      (isNone v = true ∨ isDict v = false ∨ v = PyVal.dict []) →
      (dictFind items "tool_use" = some v →
        dictHas (_build_delta (PyVal.dict items)) "tool_use" = false) ∧
      (dictFind items "function_call" = some v →
        dictHas (_build_delta (PyVal.dict items)) "function_call" = false) ∧
      toolCallContribution ("tool_use", v) = [] ∧
      toolCallContribution ("function_call", v) = [] := by
  intro items v hnd hbad
  obtain ⟨hatu, hfc⟩ := bad_signal_builds_none v hbad
  refine ⟨?_, ?_, ?_, ?_⟩
  · intro hfind
    have hproc : dictHas (_build_delta_fold items).processed "tool_use" = false := by
      refine processed_foldl_not_has "tool_use" items ⟨[], [], false⟩ rfl ?_
      intro w hw
      have hfw : dictFind items "tool_use" = some w := mem_dictFind_of_nodup hnd hw
      have hwv : w = v := Option.some.inj (hfw.symm.trans hfind)
      subst hwv
      simp [stepWritesKey, hatu, pyTruthy]
    simp only [_build_delta]
    repeat' split
    all_goals try rw [dictHas_dictSet_ne _ _ _ _ (by decide)]
    all_goals exact hproc
  · intro hfind
    have hproc : dictHas (_build_delta_fold items).processed "function_call" = false := by
      refine processed_foldl_not_has "function_call" items ⟨[], [], false⟩ rfl ?_
      intro w hw
      have hfw : dictFind items "function_call" = some w := mem_dictFind_of_nodup hnd hw
      have hwv : w = v := Option.some.inj (hfw.symm.trans hfind)
      subst hwv
      simp [stepWritesKey, hfc, pyTruthy]
    simp only [_build_delta]
    repeat' split
    all_goals try rw [dictHas_dictSet_ne _ _ _ _ (by decide)]
    all_goals exact hproc
  · simp [toolCallContribution, hatu, pyTruthy]
  · simp [toolCallContribution, hfc, pyTruthy]

/-- Witness for C9 at a delta carrying an empty `tool_use` mapping and a
null `function_call`. -/
theorem empty_tool_signal_keys_omitted_witness :
    dictHas (_build_delta (PyVal.dict [("tool_use", PyVal.dict []),
      ("content", PyVal.str "x")])) "tool_use" = false ∧
    dictHas (_build_delta (PyVal.dict [("function_call", PyVal.none)]))
      "function_call" = false ∧
    toolCallContribution ("tool_use", PyVal.dict []) = [] :=
  ⟨(empty_tool_signal_keys_omitted [("tool_use", PyVal.dict []),
      ("content", PyVal.str "x")] (PyVal.dict []) (by simp) (Or.inr (Or.inr rfl))).1 rfl,
   (empty_tool_signal_keys_omitted [("function_call", PyVal.none)] PyVal.none
      (by simp) (Or.inl rfl)).2.1 rfl,
   (empty_tool_signal_keys_omitted [] (PyVal.dict []) (by simp)
      (Or.inr (Or.inr rfl))).2.2.1⟩

/-- C10: a tool call with no `function` key but a top-level `name` or
`arguments` key gets both a synthesized `function` object built from the
flattened pair and, after the four canonical keys, the original top-level
`name`/`arguments` bindings copied verbatim: the same values appear twice
in the result. -/
theorem flattened_pair_dual_representation :
    ∀ d : PyDict, (d.map Prod.fst).Nodup →
      dictHas d "function" = false →
      (dictHas d "name" = true ∨ dictHas d "arguments" = true) →
      _build_tool_call_function d =
        PyVal.dict [("name", normalizeFunctionName (dictGet d "name")),
                    ("arguments", normalizeFunctionArguments (dictGet d "arguments"))] ∧
      _build_tool_call_delta (PyVal.dict d) =
        [("index", PyVal.int (normalizeToolCallIndex d)),
         ("id", normalizeToolCallId d),
         ("type", normalizeToolCallType d),
         ("function",
           PyVal.dict [("name", normalizeFunctionName (dictGet d "name")),
                       ("arguments", normalizeFunctionArguments (dictGet d "arguments"))])] ++
          d.filter (fun kv => ! toolCallCanonicalKeys.contains kv.1) ∧
      (dictHas d "name" = true →
        dictFind (d.filter (fun kv => ! toolCallCanonicalKeys.contains kv.1)) "name" =
          some (dictGet d "name")) ∧
      (dictHas d "arguments" = true →
        dictFind (d.filter (fun kv => ! toolCallCanonicalKeys.contains kv.1)) "arguments" =
          some (dictGet d "arguments")) := by
  intro d hnd hf hna
  have hgf : dictGet d "function" = PyVal.none := dictGet_none_of_not_has hf
  have hfun : _build_tool_call_function d =
      PyVal.dict [("name", normalizeFunctionName (dictGet d "name")),
                  ("arguments", normalizeFunctionArguments (dictGet d "arguments"))] := by
    simp only [_build_tool_call_function]
    rw [hgf]
    rcases hna with h | h <;> simp only [h, isNone, Bool.or_true] <;> rfl
  refine ⟨hfun, ?_, ?_, ?_⟩
  · have happ := passthroughFold_append toolCallCanonicalKeys d
      [("index", PyVal.int (normalizeToolCallIndex d)),
       ("id", normalizeToolCallId d),
       ("type", normalizeToolCallType d),
       ("function", _build_tool_call_function d)] hnd ?_
    · show passthroughFold
        [("index", PyVal.int (normalizeToolCallIndex d)),
         ("id", normalizeToolCallId d),
         ("type", normalizeToolCallType d),
         ("function", _build_tool_call_function d)] d toolCallCanonicalKeys = _
      rw [happ, hfun]
    · intro kv _ hsk
      have h1 : kv.1 ∉ toolCallCanonicalKeys := by simpa using hsk
      simp only [toolCallCanonicalKeys, List.mem_cons, List.mem_singleton] at h1
      push_neg at h1
      obtain ⟨n1, n2, n3, n4⟩ := h1
      have e1 : ("index" : String) ≠ kv.1 := fun hh => n1 hh.symm
      have e2 : ("id" : String) ≠ kv.1 := fun hh => n2 hh.symm
      have e3 : ("type" : String) ≠ kv.1 := fun hh => n3 hh.symm
      have e4 : ("function" : String) ≠ kv.1 := fun hh => n4.1 hh.symm
      simp [dictHas, dictFind, e1, e2, e3, e4]
  · intro hn
    have hfk := dictFind_filter_key d "name"
      (fun s => ! toolCallCanonicalKeys.contains s) (by decide)
    rw [hfk]
    exact dictFind_eq_get_of_has hn
  · intro ha
    have hfk := dictFind_filter_key d "arguments"
      (fun s => ! toolCallCanonicalKeys.contains s) (by decide)
    rw [hfk]
    exact dictFind_eq_get_of_has ha

/-- Witness for C10 at the tool call
`{name: "h", arguments: 5, extra: 7}`. -/
theorem flattened_pair_dual_representation_witness :
    _build_tool_call_function [("name", PyVal.str "h"), ("arguments", PyVal.int 5),
        ("extra", PyVal.int 7)] =
      PyVal.dict [("name", PyVal.str "h"), ("arguments", PyVal.str "5")] ∧
    dictFind (([("name", PyVal.str "h"), ("arguments", PyVal.int 5),
        ("extra", PyVal.int 7)] : PyDict).filter
        (fun kv => ! toolCallCanonicalKeys.contains kv.1)) "name" =
      some (PyVal.str "h") ∧
    dictFind (([("name", PyVal.str "h"), ("arguments", PyVal.int 5),
        ("extra", PyVal.int 7)] : PyDict).filter
        (fun kv => ! toolCallCanonicalKeys.contains kv.1)) "arguments" =
      some (PyVal.int 5) :=
  ⟨(flattened_pair_dual_representation
      [("name", PyVal.str "h"), ("arguments", PyVal.int 5), ("extra", PyVal.int 7)]
      (by simp) rfl (Or.inl rfl)).1,
   (flattened_pair_dual_representation
      [("name", PyVal.str "h"), ("arguments", PyVal.int 5), ("extra", PyVal.int 7)]
      (by simp) rfl (Or.inl rfl)).2.2.1 rfl,
   (flattened_pair_dual_representation
      [("name", PyVal.str "h"), ("arguments", PyVal.int 5), ("extra", PyVal.int 7)]
      (by simp) rfl (Or.inl rfl)).2.2.2 rfl⟩
